import Mathlib

/-!
Verification development for the l8ql query library (parser, resolver,
evaluator and query facade for the L8QL query language).

The Go sources are shallowly embedded: each Lean definition below mirrors
one Go function or method of the repository.  Machine integers are modelled
as `Int`/`Nat` with explicit range checks where Go's fixed width matters,
Go's `(value, error)` returns become `Option`/pairs with an `Option String`
error component, and Go panics (nil dereference, failed type assertion,
out-of-range slicing) are totalized with a default value; every such spot is
marked by a comment.  Records are modelled twice: as an abstract record type
with accessor functions (for match/keyOf claims) and as addresses into an
explicit heap (for the filter/clone frame claims).
-/

namespace L8

/-! ### Basic string helpers (Go `strings` package behaviour, ASCII) -/

/-- The single-quote character, written via its code point. -/
def squote : Char := Char.ofNat 39

/-- Lowercasing via the character list (Go `strings.ToLower`, ASCII). -/
def lowerStr (s : String) : String := String.mk (s.data.map Char.toLower)

/-- Trimming surrounding whitespace (Go `strings.TrimSpace`, ASCII). -/
def trimChars (cs : List Char) : List Char :=
  ((cs.dropWhile Char.isWhitespace).reverse.dropWhile Char.isWhitespace).reverse

/-- Splitting on a one-character separator (Go `strings.Split` for the
separators `*` and `,` used by this library). -/
def splitOnCharAux (c : Char) : List Char → List Char → List String
  | [], acc => [String.mk acc.reverse]
  | x :: rest, acc =>
    if x == c then String.mk acc.reverse :: splitOnCharAux c rest []
    else splitOnCharAux c rest (x :: acc)

/-- Go `strings.Split s (String.mk [c])`. -/
def splitOnChar (s : String) (c : Char) : List String :=
  splitOnCharAux c s.data []

/-- Go byte-lexicographic string `<` (UTF-8 byte order coincides with
code-point order). -/
def charsLt : List Char → List Char → Bool
  | [], [] => false
  | [], _ :: _ => true
  | _ :: _, [] => false
  | a :: as, b :: bs => if a < b then true else if b < a then false else charsLt as bs

/-- Go string `<` on strings. -/
def strLtGo (a b : String) : Bool := charsLt a.data b.data

/-- Go string `<=` on strings (`a <= b` iff not `b < a`). -/
def strLeGo (a b : String) : Bool := !(charsLt b.data a.data)

/-- Tests whether `sub` is an initial run of `s` (character-wise). -/
def charsLead : List Char → List Char → Bool
  | [], _ => true
  | _ :: _, [] => false
  | a :: as, b :: bs => a == b && charsLead as bs

/-- Go `strings.Contains` on character lists: does `s` contain `sub`
contiguously?  The empty `sub` is contained in everything. -/
def strContainsL (sub : List Char) : List Char → Bool
  | [] => charsLead sub []
  | c :: t => charsLead sub (c :: t) || strContainsL sub t

/-- Go `strings.Contains s sub`. -/
def strContains (s sub : String) : Bool :=
  strContainsL sub.data s.data

/-- Go `strconv.Atoi`: optional sign, decimal digits, 64-bit range check.
Returns `none` on a syntax or range error (the Go call returns a non-nil
error in exactly those cases). -/
def goAtoi (s : String) : Option Int :=
  let cs := s.data
  let signDigits : Int × List Char :=
    match cs with
    | c :: rest =>
      if c == '+' then (1, rest)
      else if c == '-' then (-1, rest)
      else (1, cs)
    | [] => (1, [])
  let sign := signDigits.1
  let digits := signDigits.2
  if digits = [] then none
  else if digits.all Char.isDigit then
    let n : Nat := digits.foldl (fun acc c => acc * 10 + (c.toNat - 48)) 0
    let v : Int := sign * n
    if v < -(2 ^ 63) ∨ 2 ^ 63 - 1 < v then none else some v
  else none

/-- Two's-complement truncation to 32 bits, as in Go's `int32(x)` cast. -/
def wrap32 (v : Int) : Int := (v + 2 ^ 31).emod (2 ^ 32) - 2 ^ 31

/-! ### Parser helpers (`parser` package) -/

/-- Go `removeSingleQuote` (comparators package): if the value contains a
single quote anywhere, drop its first and last character, else return it
unchanged.  (Go slices bytes; for the ASCII operands of this language this
coincides with characters.  `value[1:len-1]` panics in Go on a one-character
input; the model returns the empty string there.) -/
def removeSingleQuote (value : String) : String :=
  if value.data.any (fun ch => ch == squote) then String.mk ((value.data.drop 1).dropLast)
  else value

/-- Go `parser.stripQuotes`: strip surrounding double quotes keeping case,
otherwise lowercase the whole operand. -/
def stripQuotes (s : String) : String :=
  if 2 ≤ s.data.length ∧ s.data.head? = some '"' ∧ s.data.getLast? = some '"' then
    String.mk ((s.data.drop 1).dropLast)
  else lowerStr s

/-- Go `parser.TrimAndLowerNoKeys` inner loop: lowercase every character
that is not between a `[` and the following `]`.  The flag is updated
before the character is emitted, exactly as in the source. -/
def lowerNoKeysGo : List Char → Bool → List Char
  | [], _ => []
  | c :: rest, keyOpen =>
    let keyOpen' :=
      if c == '[' then true else if c == ']' then false else keyOpen
    (if !keyOpen' then c.toLower else c) :: lowerNoKeysGo rest keyOpen'

/-- Go `parser.TrimAndLowerNoKeys`: trim surrounding whitespace, then
lowercase outside square brackets. -/
def TrimAndLowerNoKeys (sql : String) : String :=
  String.mk (lowerNoKeysGo (trimChars sql.data) false)

/-- Go `parser.getBoolTag`: "true" when the tag occurs in the (lowered)
text, "false" otherwise.  (`strings.Index(str, tag) != -1` is containment.) -/
def getBoolTag (str tag : String) : String :=
  if strContains str tag then "true" else "false"

/-- The `descending` field produced by `PQuery.split` + `PQuery.init` for a
query text: `descending` sets the flag, a present `ascending` then clears
it.  `sql` is the bracket-preserving lowercase form of the text. -/
def pqueryDescending (text : String) : Bool :=
  let sql := TrimAndLowerNoKeys text
  let descTag := getBoolTag sql "descending"
  let ascTag := getBoolTag sql "ascending"
  let d0 := false
  let d1 := if descTag = "true" then true else d0
  if ascTag = "true" then false else d1

/-- The limit-clause step of `PQuery.init` (src/unnamed/part_005, lines
192-202).  `none` models the hard `ParseError`; `some v` is the resulting
`Limit` field (0 when the clause is absent, Go's `int32` cast applied). -/
def initLimit (limitStr : String) : Option Int :=
  if limitStr = "" then some 0
  else
    let limit : Int :=
      match goAtoi limitStr with
      | none => 10
      | some v => v
    if 1000 ≤ limit then none
    else some (wrap32 limit)

/-! ### Values and comparison kinds (`comparators` package)

A `GoVal` models the `interface{}` operand values reaching the comparison
kernels: strings, signed and unsigned integers, slices, and the nil
interface.  Pointer-typed record fields and map-typed fields are outside
the modelled value universe (no claim exercises them). -/

inductive GoVal where
  | str : String → GoVal
  | intV : Int → GoVal
  | uintV : Nat → GoVal
  | slice : List GoVal → GoVal
  | nilv : GoVal

/-- The `reflect.Kind` abstraction used for kernel dispatch. -/
inductive Kind where
  | strK | intK | uintK | sliceK
deriving DecidableEq

/-- Kind of a value as `reflect.ValueOf(v).Kind()` reports it, with `nil`
keeping the `String` default (Go guards on `IsValid()`). -/
def kindOfScalar : GoVal → Kind
  | .str _ => .strK
  | .intV _ => .intK
  | .uintV _ => .uintK
  | .slice _ => .sliceK
  | .nilv => .strK

/-- One side's contribution in Go `getKind`: a slice contributes the kind
of its first element (Go unwraps one interface layer; model elements are
already concrete), an empty slice keeps the `String` default. -/
def sideKind : GoVal → Kind
  | .slice [] => .strK
  | .slice (e :: _) => kindOfScalar e
  | v => kindOfScalar v

/-- Go `comparators.getKind`: prefer the left side's non-String kind, then
the right side's, and fall back to String. -/
def getKind (aside zside : GoVal) : Kind :=
  let ak := sideKind aside
  let zk := sideKind zside
  if ak ≠ .strK then ak else if zk ≠ .strK then zk else ak

/-- Go `comparators.getInt64`: numeric values directly, strings via
`strconv.Atoi`.  `Value.Int()` panics on the remaining kinds; the model
returns `none` there (unreachable under the kernels' dispatch). -/
def getInt64 : GoVal → Option Int
  | .str s => goAtoi s
  | .intV i => some i
  | _ => none

/-- Go `comparators.getUint64`: like `getInt64`; the string path goes
through `Atoi` and then Go's wrapping `uint64(i)` cast. -/
def getUint64 : GoVal → Option Nat
  | .str s => (goAtoi s).map (fun i => (i.emod (2 ^ 64)).toNat)
  | .uintV n => some n
  | _ => none

/-- Go `comparators.GetWildCardSubstrings`: `none` when the string has no
`*`, otherwise the split on `*`. -/
def GetWildCardSubstrings (str : String) : Option (List String) :=
  if strContains str "*" then some (splitOnChar str (Char.ofNat 42)) else none

/-- First index of a character, or -1, as Go `strings.Index` for a
one-character pattern. -/
def idxOfCharAux : List Char → Char → Nat → Int
  | [], _, _ => -1
  | a :: rest, c, k => if a == c then (k : Int) else idxOfCharAux rest c (k + 1)

/-- First index of a character in a string, or -1. -/
def idxOfChar (cs : List Char) (c : Char) : Int := idxOfCharAux cs c 0

/-- Go `comparators.getInStringList`: the text between the first `[` and
the first `]`, comma-split, single quotes stripped from each element.
(Missing `[` makes Go slice from 0, which the model reproduces; missing
`]` makes Go panic, the model yields the empty slice.) -/
def getInStringList (str : String) : List String :=
  let cs := str.data
  let i1 := idxOfChar cs '['
  let i2 := idxOfChar cs ']'
  let lst := String.mk ((cs.take i2.toNat).drop (i1 + 1).toNat)
  (splitOnChar lst (Char.ofNat 44)).map removeSingleQuote

/-! ### Comparison kernels -/

mutual
/-- Go `eqStringMatcher`: slices match when some element matches; scalar
sides are lowercased and single-quote-stripped, `nil` matches the empty
string, `*` on either side matches, a `*` inside the right side turns into
contains-any over its non-empty split pieces, else plain equality.  A
non-string scalar left or right side fails Go's type assertion (panic);
the model returns false there. -/
def eqStringMatcher : GoVal → GoVal → Bool
  | .slice l, right => eqStringAny l right
  | .str ls, .str rs =>
    let aside := removeSingleQuote (lowerStr ls)
    let zside := removeSingleQuote (lowerStr rs)
    if aside = "nil" ∧ zside = "" then true
    else if zside = "nil" ∧ aside = "" then true
    else if aside = "*" ∨ zside = "*" then true
    else
      match GetWildCardSubstrings zside with
      | none => aside == zside
      | some splits => splits.any (fun sub => sub != "" && strContains aside sub)
  | _, _ => false

/-- The element loop of `eqStringMatcher` over a slice left side. -/
def eqStringAny : List GoVal → GoVal → Bool
  | [], _ => false
  | e :: rest, right => eqStringMatcher e right || eqStringAny rest right
end

/-- Is the value the literal string "nil" (Go `v.(string)` + comparison)? -/
def isNilStr : GoVal → Bool
  | .str s => s == "nil"
  | _ => false

/-- Go `eqIntMatcher`: `nil` on one side matches 0 on the other, a failed
parse on either side is false, else arithmetic equality. -/
def eqIntMatcher (left right : GoVal) : Bool :=
  let a := getInt64 left
  let z := getInt64 right
  if isNilStr right ∧ a = some 0 then true
  else if isNilStr left ∧ z = some 0 then true
  else
    match a, z with
    | some av, some zv => av == zv
    | _, _ => false

/-- Go `eqUintMatcher`. -/
def eqUintMatcher (left right : GoVal) : Bool :=
  match getUint64 left, getUint64 right with
  | some a, some z => a == z
  | _, _ => false

/-- Go `noteqStringMatcher` (panic on non-string modelled as false). -/
def noteqStringMatcher : GoVal → GoVal → Bool
  | .str ls, .str rs => removeSingleQuote (lowerStr ls) != removeSingleQuote (lowerStr rs)
  | _, _ => false

/-- Go `noteqIntMatcher`. -/
def noteqIntMatcher (l r : GoVal) : Bool :=
  match getInt64 l, getInt64 r with
  | some a, some z => a != z
  | _, _ => false

/-- Go `noteqUintMatcher`. -/
def noteqUintMatcher (l r : GoVal) : Bool :=
  match getUint64 l, getUint64 r with
  | some a, some z => a != z
  | _, _ => false

/-- Go `ltStringMatcher`: lexicographic on the processed sides. -/
def ltStringMatcher : GoVal → GoVal → Bool
  | .str ls, .str rs =>
    strLtGo (removeSingleQuote (lowerStr ls)) (removeSingleQuote (lowerStr rs))
  | _, _ => false

/-- Go `ltIntMatcher`. -/
def ltIntMatcher (l r : GoVal) : Bool :=
  match getInt64 l, getInt64 r with
  | some a, some z => decide (a < z)
  | _, _ => false

/-- Go `ltUintMatcher`. -/
def ltUintMatcher (l r : GoVal) : Bool :=
  match getUint64 l, getUint64 r with
  | some a, some z => decide (a < z)
  | _, _ => false

/-- Go `lteqStringMatcher`. -/
def lteqStringMatcher : GoVal → GoVal → Bool
  | .str ls, .str rs =>
    strLeGo (removeSingleQuote (lowerStr ls)) (removeSingleQuote (lowerStr rs))
  | _, _ => false

/-- Go `lteqIntMatcher`. -/
def lteqIntMatcher (l r : GoVal) : Bool :=
  match getInt64 l, getInt64 r with
  | some a, some z => decide (a ≤ z)
  | _, _ => false

/-- Go `lteqUintMatcher`. -/
def lteqUintMatcher (l r : GoVal) : Bool :=
  match getUint64 l, getUint64 r with
  | some a, some z => decide (a ≤ z)
  | _, _ => false

/-- Go `gteqStringMatcher`. -/
def gteqStringMatcher : GoVal → GoVal → Bool
  | .str ls, .str rs =>
    strLeGo (removeSingleQuote (lowerStr rs)) (removeSingleQuote (lowerStr ls))
  | _, _ => false

/-- Go `gteqIntMatcher`. -/
def gteqIntMatcher (l r : GoVal) : Bool :=
  match getInt64 l, getInt64 r with
  | some a, some z => decide (z ≤ a)
  | _, _ => false

/-- Go `gteqUintMatcher`. -/
def gteqUintMatcher (l r : GoVal) : Bool :=
  match getUint64 l, getUint64 r with
  | some a, some z => decide (z ≤ a)
  | _, _ => false

/-- Modelled from the spec: `GreaterThan.go` is absent from the provided
sources; the spec's per-operator table gives `>` lexicographic ordering on
lowercased text, mirroring the `<` kernel with the order reversed. -/
def gtStringMatcher : GoVal → GoVal → Bool
  | .str ls, .str rs =>
    strLtGo (removeSingleQuote (lowerStr rs)) (removeSingleQuote (lowerStr ls))
  | _, _ => false

/-- Modelled from the spec: signed variant of the missing `>` kernel. -/
def gtIntMatcher (l r : GoVal) : Bool :=
  match getInt64 l, getInt64 r with
  | some a, some z => decide (z < a)
  | _, _ => false

/-- Modelled from the spec: unsigned variant of the missing `>` kernel. -/
def gtUintMatcher (l r : GoVal) : Bool :=
  match getUint64 l, getUint64 r with
  | some a, some z => decide (z < a)
  | _, _ => false

/-- The element loop of Go `inStringMatcher`. -/
def inStrLoop (aside : String) : List String → Bool
  | [] => false
  | v :: rest => if aside == v then true else inStrLoop aside rest

/-- The element loop of Go `notinStringMatcher`. -/
def notinStrLoop (aside : String) : List String → Bool
  | [] => true
  | v :: rest => if aside == v then false else notinStrLoop aside rest

/-- The element loop of Go `inIntMatcher`: a non-integer list element
aborts with false. -/
def inIntLoop (aside : Int) : List String → Bool
  | [] => false
  | v :: rest =>
    match goAtoi v with
    | none => false
    | some iv => if aside == iv then true else inIntLoop aside rest

/-- The element loop of Go `notinIntMatcher`: a non-integer list element
aborts with true. -/
def notinIntLoop (aside : Int) : List String → Bool
  | [] => true
  | v :: rest =>
    match goAtoi v with
    | none => true
    | some iv => if aside == iv then false else notinIntLoop aside rest

/-- The element loop of Go `inUintMatcher` (`uint64(intV)` wraps). -/
def inUintLoop (aside : Nat) : List String → Bool
  | [] => false
  | v :: rest =>
    match goAtoi v with
    | none => false
    | some iv =>
      if aside == (iv.emod (2 ^ 64)).toNat then true else inUintLoop aside rest

/-- The element loop of Go `notinUintMatcher`. -/
def notinUintLoop (aside : Nat) : List String → Bool
  | [] => true
  | v :: rest =>
    match goAtoi v with
    | none => true
    | some iv =>
      if aside == (iv.emod (2 ^ 64)).toNat then false else notinUintLoop aside rest

/-- Go `inStringMatcher`. -/
def inStringMatcher : GoVal → GoVal → Bool
  | .str ls, .str rs =>
    inStrLoop (removeSingleQuote (lowerStr ls)) (getInStringList (lowerStr rs))
  | _, _ => false

/-- Go `notinStringMatcher`. -/
def notinStringMatcher : GoVal → GoVal → Bool
  | .str ls, .str rs =>
    notinStrLoop (removeSingleQuote (lowerStr ls)) (getInStringList (lowerStr rs))
  | _, _ => false

/-- Go `inIntMatcher` (the failed `right.(string)` assertion panics in Go;
the model returns false there). -/
def inIntMatcher (l r : GoVal) : Bool :=
  match getInt64 l with
  | none => false
  | some a =>
    match r with
    | .str rs => inIntLoop a (getInStringList (lowerStr rs))
    | _ => false

/-- Go `notinIntMatcher`. -/
def notinIntMatcher (l r : GoVal) : Bool :=
  match getInt64 l with
  | none => true
  | some a =>
    match r with
    | .str rs => notinIntLoop a (getInStringList (lowerStr rs))
    | _ => false

/-- Go `inUintMatcher`. -/
def inUintMatcher (l r : GoVal) : Bool :=
  match getUint64 l with
  | none => false
  | some a =>
    match r with
    | .str rs => inUintLoop a (getInStringList (lowerStr rs))
    | _ => false

/-- Go `notinUintMatcher`. -/
def notinUintMatcher (l r : GoVal) : Bool :=
  match getUint64 l with
  | none => true
  | some a =>
    match r with
    | .str rs => notinUintLoop a (getInStringList (lowerStr rs))
    | _ => false

/-! ### Dispatch (`Compare` helper and the comparables table) -/

/-- The nine-minus-one comparator operations registered in `comparables`
(the parser's `ComparatorOperation` constants). -/
inductive Oper where
  | eq | neq | gt | lt | gteq | lteq | opIn | opNotIn
deriving DecidableEq

/-- Go `Compare` specialised to `Equal`'s map (a kind with no map entry
panics in Go; the model returns false; the pointer entry is outside the
modelled value universe). -/
def eqCompare (l r : GoVal) : Bool :=
  match getKind l r with
  | .strK => eqStringMatcher l r
  | .intK => eqIntMatcher l r
  | .uintK => eqUintMatcher l r
  | .sliceK => false

/-- Go `Compare` specialised to `NotEqual`'s map. -/
def neqCompare (l r : GoVal) : Bool :=
  match getKind l r with
  | .strK => noteqStringMatcher l r
  | .intK => noteqIntMatcher l r
  | .uintK => noteqUintMatcher l r
  | .sliceK => false

/-- Go `Compare` specialised to `GreaterThan`'s map. -/
def gtCompare (l r : GoVal) : Bool :=
  match getKind l r with
  | .strK => gtStringMatcher l r
  | .intK => gtIntMatcher l r
  | .uintK => gtUintMatcher l r
  | .sliceK => false

/-- Go `Compare` specialised to `LessThan`'s map. -/
def ltCompare (l r : GoVal) : Bool :=
  match getKind l r with
  | .strK => ltStringMatcher l r
  | .intK => ltIntMatcher l r
  | .uintK => ltUintMatcher l r
  | .sliceK => false

/-- Go `Compare` specialised to `GreaterThanOrEqual`'s map. -/
def gteqCompare (l r : GoVal) : Bool :=
  match getKind l r with
  | .strK => gteqStringMatcher l r
  | .intK => gteqIntMatcher l r
  | .uintK => gteqUintMatcher l r
  | .sliceK => false

/-- Go `Compare` specialised to `LessThanOrEqual`'s map. -/
def lteqCompare (l r : GoVal) : Bool :=
  match getKind l r with
  | .strK => lteqStringMatcher l r
  | .intK => lteqIntMatcher l r
  | .uintK => lteqUintMatcher l r
  | .sliceK => false

/-- Go `Compare` specialised to `IN`'s map. -/
def inCompare (l r : GoVal) : Bool :=
  match getKind l r with
  | .strK => inStringMatcher l r
  | .intK => inIntMatcher l r
  | .uintK => inUintMatcher l r
  | .sliceK => false

/-- Go `Compare` specialised to `NotIN`'s map. -/
def notinCompare (l r : GoVal) : Bool :=
  match getKind l r with
  | .strK => notinStringMatcher l r
  | .intK => notinIntMatcher l r
  | .uintK => notinUintMatcher l r
  | .sliceK => false

/-- The `comparables` dispatch table of the interpreter package. -/
def comparablesCompare : Oper → GoVal → GoVal → Bool
  | .eq => eqCompare
  | .neq => neqCompare
  | .gt => gtCompare
  | .lt => ltCompare
  | .gteq => gteqCompare
  | .lteq => lteqCompare
  | .opIn => inCompare
  | .opNotIn => notinCompare

/-! ### Interpreter: comparator, condition, expression, query facade

Records are abstracted to a type `Rec`; a resolved accessor is a function
producing a value or an error, mirroring `properties.Property.Get`. -/

variable {Rec : Type}

/-- A resolved property accessor (the `properties.Property` capability). -/
structure Property (Rec : Type) where
  get : Rec → Except String GoVal

/-- The interpreted `Comparator` struct: operand texts, optional resolved
accessors, and the operation. -/
structure Comparator (Rec : Type) where
  left : String
  leftProperty : Option (Property Rec)
  operation : Oper
  right : String
  rightProperty : Option (Property Rec)

/-- The per-element step of Go `toLowerValue` on a string slice (Go calls
reflect `String()` on every element; mixed slices are outside the modelled
scope, non-string elements are kept). -/
def lowerElem : GoVal → GoVal
  | .str s => .str (lowerStr s)
  | v => v

/-- Go `toLowerValue`: lowercase strings, and string slices elementwise
(detected from the first element); other values pass through.  The map
case of the source needs map-shaped values, which are outside the modelled
value universe. -/
def toLowerValue : GoVal → GoVal
  | .str s => .str (lowerStr s)
  | .slice [] => .slice []
  | .slice (GoVal.str s :: rest) => .slice ((GoVal.str s :: rest).map lowerElem)
  | .slice (e :: rest) => .slice (e :: rest)
  | v => v

/-- Go `Comparator.Match(root, matchCase)` (src/unnamed/part_002, lines
101-128).  The right-binding branch is translated verbatim: it returns
`(false, err)` unconditionally after the `Get`, even when `err` is nil,
instead of falling through to the kernel dispatch. -/
def Comparator.MatchC (c : Comparator Rec) (root : Rec) (matchCase : Bool) :
    Bool × Option String :=
  let leftStep : Except String GoVal :=
    match c.leftProperty with
    | some p => p.get root
    | none => .ok (.str c.left)
  match leftStep with
  | .error e => (false, some e)
  | .ok leftValue =>
    match c.rightProperty with
    | some p =>
      match p.get root with
      | .error e => (false, some e)
      | .ok _ => (false, none)
    | none =>
      let rightValue := GoVal.str c.right
      let lv := if !matchCase then toLowerValue leftValue else leftValue
      let rv := if !matchCase then toLowerValue rightValue else rightValue
      (comparablesCompare c.operation lv rv, none)

/-- Go `Comparator.keyOf`: the left text when the left side is unbound,
else the right text when the right side is unbound, else empty. -/
def Comparator.keyOf (c : Comparator Rec) : String :=
  if c.leftProperty.isNone then c.left
  else if c.rightProperty.isNone then c.right
  else ""

/-- The parser's `ConditionOperation` AND constant. -/
def andOp : String := " and "

/-- The parser's `ConditionOperation` OR constant. -/
def orOp : String := " or "

/-- The interpreted `Condition` chain: a comparator, the link operator,
and the optional next link. -/
inductive Condition (Rec : Type) where
  | mk : Option (Comparator Rec) → String → Option (Condition Rec) → Condition Rec

/-- The comparator of a condition link. -/
def Condition.comparator : Condition Rec → Option (Comparator Rec)
  | .mk c _ _ => c

/-- Go `Condition.Match(root, matchCase)`: evaluate this comparator, give
the `next` slot its OR/AND-neutral default, evaluate the next link when
present, then combine according to the link operator.  The source
dereferences a nil comparator (panic); the model returns an error there. -/
def Condition.MatchCond : Condition Rec → Rec → Bool → Bool × Option String
  | .mk compOpt op next, root, mc =>
    match compOpt with
    | none => (false, some "nil comparator dereference")
    | some cp =>
      match cp.MatchC root mc with
      | (_, some e) => (false, some e)
      | (comp, none) =>
        let dflt := if op = orOp then false else true
        let finish : Bool → Bool × Option String := fun nextv =>
          if op = "" then (nextv && comp, none)
          else if op = andOp then (comp && nextv, none)
          else if op = orOp then (comp || nextv, none)
          else (false, some ("Unsupported operation in match:" ++ op))
        match next with
        | some n =>
          match Condition.MatchCond n root mc with
          | (_, some e) => (false, some e)
          | (nv, none) => finish nv
        | none => finish dflt

/-- Go `Condition.keyOf`: the comparator's keyOf when a comparator is
present (no fallthrough), else recurse on the next link, else empty. -/
def Condition.keyOfCond : Condition Rec → String
  | .mk (some cp) _ _ => cp.keyOf
  | .mk none _ (some n) => Condition.keyOfCond n
  | .mk none _ none => ""

/-- The comparator `Condition.keyOfCond` ends up consulting: the first
link of the chain that carries a comparator. -/
def Condition.headComp : Condition Rec → Option (Comparator Rec)
  | .mk (some cp) _ _ => some cp
  | .mk none _ (some n) => Condition.headComp n
  | .mk none _ none => none

/-- All comparators of a condition chain, in chain order. -/
def Condition.compList : Condition Rec → List (Comparator Rec)
  | .mk (some cp) _ (some n) => cp :: Condition.compList n
  | .mk (some cp) _ none => [cp]
  | .mk none _ (some n) => Condition.compList n
  | .mk none _ none => []

/-- The interpreted `Expression` tree: an optional condition, the link
operator, the optional next sibling, and the optional bracketed child. -/
inductive Expression (Rec : Type) where
  | mk : Option (Condition Rec) → String → Option (Expression Rec) →
      Option (Expression Rec) → Expression Rec

/-- The condition of an expression node. -/
def Expression.condition : Expression Rec → Option (Condition Rec)
  | .mk c _ _ _ => c

/-- Go `Expression.Match(root)` with the match-case flag threaded through
to the condition layer: condition, child and next default to the
OR/AND-neutral value, each present branch is evaluated (errors abort),
then the three are combined by the node's operator. -/
def Expression.MatchE : Expression Rec → Rec → Bool → Bool × Option String
  | .mk condOpt op next child, root, mc =>
    let dflt := if op = orOp then false else true
    let condRes : Bool × Option String :=
      match condOpt with
      | some c => c.MatchCond root mc
      | none => (dflt, none)
    match condRes with
    | (_, some e) => (false, some e)
    | (condV, none) =>
      let childRes : Bool × Option String :=
        match child with
        | some ch => Expression.MatchE ch root mc
        | none => (dflt, none)
      match childRes with
      | (_, some e) => (false, some e)
      | (childV, none) =>
        let nextRes : Bool × Option String :=
          match next with
          | some n => Expression.MatchE n root mc
          | none => (dflt, none)
        match nextRes with
        | (_, some e) => (false, some e)
        | (nextV, none) =>
          if op = "" then (childV && nextV && condV, none)
          else if op = andOp then (childV && nextV && condV, none)
          else if op = orOp then (childV || nextV || condV, none)
          else (false, some ("Unsupported operation in match:" ++ op))

/-- Go `Expression.keyOf`: the condition's keyOf when a condition is
present (no fallthrough), else the child's, else the next sibling's,
else empty. -/
def Expression.keyOfE : Expression Rec → String
  | .mk (some c) _ _ _ => c.keyOfCond
  | .mk none _ _ (some ch) => Expression.keyOfE ch
  | .mk none _ (some n) none => Expression.keyOfE n
  | .mk none _ none none => ""

/-- The comparator `Expression.keyOfE` ends up consulting: head of the
condition when present, else the child's head, else the next sibling's. -/
def Expression.headComp : Expression Rec → Option (Comparator Rec)
  | .mk (some c) _ _ _ => c.headComp
  | .mk none _ _ (some ch) => Expression.headComp ch
  | .mk none _ (some n) none => Expression.headComp n
  | .mk none _ none none => none

/-- Comparators of an optional condition chain. -/
def condComps : Option (Condition Rec) → List (Comparator Rec)
  | some c => c.compList
  | none => []

/-- All comparators of an expression tree in condition-before-child-
before-next reading order. -/
def Expression.compList : Expression Rec → List (Comparator Rec)
  | .mk condOpt _ (some n) (some ch) =>
    condComps condOpt ++ Expression.compList ch ++ Expression.compList n
  | .mk condOpt _ (some n) none => condComps condOpt ++ Expression.compList n
  | .mk condOpt _ none (some ch) => condComps condOpt ++ Expression.compList ch
  | .mk condOpt _ none none => condComps condOpt

/-- The interpreted `Query` facade (the fields the claims touch). -/
structure Query (Rec : Type) where
  rootType : Option String
  whereE : Option (Expression Rec)
  matchCase : Bool

/-- Go `Query.match`: nil record and nil root type short-circuit to
`(false, nil)`, an absent WHERE clause to `(true, nil)`, otherwise the
expression tree decides. -/
def Query.matchQ (q : Query Rec) (root : Option Rec) : Bool × Option String :=
  match root with
  | none => (false, none)
  | some r =>
    match q.rootType with
    | none => (false, none)
    | some _ =>
      match q.whereE with
      | none => (true, none)
      | some e => e.MatchE r q.matchCase

/-- Go `Query.KeyOf`: empty without a WHERE clause, else the tree's keyOf. -/
def Query.KeyOf (q : Query Rec) : String :=
  match q.whereE with
  | none => ""
  | some e => e.keyOfE

/-- A comparator with exactly one resolved side, i.e. one that has a
literal side whose other side carries a binding. -/
def oneSidedBinding (c : Comparator Rec) : Bool :=
  (c.leftProperty.isNone && c.rightProperty.isSome) ||
    (c.leftProperty.isSome && c.rightProperty.isNone)

/-- The claim's reading of `KeyOf`, following the spec's words: scan the
comparators in condition-before-child-before-next order, take the first
whose other side carries a binding, and return its literal side; empty
when the query has no WHERE clause or no such comparator exists. -/
def Query.keyOfClaimScan (q : Query Rec) : String :=
  match q.whereE with
  | none => ""
  | some e =>
    match e.compList.find? oneSidedBinding with
    | some c => if c.leftProperty.isNone then c.left else c.right
    | none => ""

/-! ### Heap model for `Query.Filter` and `Query.cloneOnlyWithColumns`

To express allocation and mutation, records live in an explicit heap:
a record is an address into a list of field maps.  Accessor `Get`/`Set`
become field reads/writes on the addressed record. -/

/-- A field (property) name. -/
abbrev Field := String

/-- The stored contents of a record: an association list of fields. -/
abbrev RecData := List (Field × GoVal)

/-- The heap: records addressed by their index. -/
structure Heap where
  cells : List RecData

/-- Allocate a fresh record (`reflect.New`): appended at the end, its
address is the previous length. -/
def Heap.alloc (h : Heap) (r : RecData) : Heap × Nat :=
  (⟨h.cells ++ [r]⟩, h.cells.length)

/-- Read a record from the heap. -/
def Heap.read (h : Heap) (a : Nat) : Option RecData :=
  h.cells.get? a

/-- Overwrite a record in the heap. -/
def Heap.write (h : Heap) (a : Nat) (r : RecData) : Heap :=
  ⟨h.cells.set a r⟩

/-- Replace a field in a record's contents (insert when absent). -/
def setField : RecData → Field → GoVal → RecData
  | [], f, v => [(f, v)]
  | kv :: rest, f, v =>
    if kv.1 == f then (f, v) :: rest else kv :: setField rest f v

/-- Accessor `Get` in the heap model: read the addressed record's field. -/
def propGet (h : Heap) (a : Nat) (f : Field) : Option GoVal :=
  (h.read a).bind fun r => (r.find? (fun kv => kv.1 == f)).map (·.2)

/-- Accessor `Set` in the heap model: update the addressed record's field
(no-op on a dangling address). -/
def propSet (h : Heap) (a : Nat) (f : Field) (v : GoVal) : Heap :=
  match h.read a with
  | none => h
  | some r => h.write a (setField r f v)

/-- Go `Query.cloneOnlyWithColumns`: allocate a fresh empty record of the
root type, then for each selected property copy `get(source)` into the
clone via `set` (the source's `Get` error is discarded, as in the source's
`v, _ := column.Get(any)`). -/
def cloneOnlyWithColumns (props : List Field) (h : Heap) (a : Nat) :
    Heap × Nat :=
  let al := h.alloc []
  let h2 := props.foldl
    (fun hh p => propSet hh al.2 p ((propGet hh a p).getD GoVal.nilv)) al.1
  (h2, al.2)

/-- The query facade restricted to what `Filter` uses: the resolved
projection properties and the boolean `Match` predicate (Go `Query.Match`
returns a plain bool after logging; in the heap model it reads the heap). -/
structure HQuery where
  properties : List Field
  pred : Heap → Nat → Bool

/-- Go `Query.Filter`: keep the matching records; with projection
requested and specific properties resolved, append a fresh clone holding
only those columns, otherwise append the original record itself. -/
def HQuery.Filter (q : HQuery) (h : Heap) (list : List Nat) (only : Bool) :
    Heap × List Nat :=
  match list with
  | [] => (h, [])
  | i :: rest =>
    if q.pred h i then
      if !only || q.properties.isEmpty then
        let r := HQuery.Filter q h rest only
        (r.1, i :: r.2)
      else
        let hc := cloneOnlyWithColumns q.properties h i
        let r := HQuery.Filter q hc.1 rest only
        (r.1, hc.2 :: r.2)
    else HQuery.Filter q h rest only

/-- Resolution of one SELECT column list entry after another, failing as
soon as one column has no property (the loop body of `initColumns`). -/
def resolveAll (resolve : String → Option Field) : List String → Option (List Field)
  | [] => some []
  | c :: rest =>
    match resolve c with
    | none => none
    | some p =>
      match resolveAll resolve rest with
      | none => none
      | some ps => some (p :: ps)

/-- Go `Query.initColumns`: a sole `*` column resolves to no specific
properties; otherwise every column must resolve. -/
def initColumns (resolve : String → Option Field) (props : List String) :
    Option (List Field) :=
  if props = ["*"] then some []
  else resolveAll resolve props

/-- Heap extension: every pre-existing record is intact and new records
sit after them. -/
def Heap.Grows (h h' : Heap) : Prop :=
  ∃ ext, h'.cells = h.cells ++ ext

/-! ### Concrete instances used by the claim theorems -/

/-- A concrete query with no resolved projection properties. -/
def c9Query : HQuery := ⟨[], fun _ a => a == 0⟩

/-- A concrete two-record heap. -/
def c9Heap : Heap := ⟨[[("f", GoVal.str "x")], []]⟩

/-- A comparator whose right side is bound to an accessor that succeeds
with the string "5" and whose left side is the literal "5". -/
def c1Comparator : Comparator Unit :=
  ⟨"5", none, Oper.eq, "mykey", some ⟨fun _ => Except.ok (GoVal.str "5")⟩⟩

/-- The comparator built by the parser for `mystring="Hello"` (the right
literal goes through `stripQuotes`) against a record whose field holds
"hello", resolved on the left. -/
def c4Comparator : Comparator Unit :=
  ⟨"mystring", some ⟨fun _ => Except.ok (GoVal.str "hello")⟩, Oper.eq,
    stripQuotes "\"Hello\"", none⟩

/-- An operand of one of the three scalar kernel kinds (string, signed
integer, unsigned integer). -/
def isScalarOperand : GoVal → Bool
  | .str _ => true
  | .intV _ => true
  | .uintV _ => true
  | _ => false

/-- An accessor that always succeeds (its value is irrelevant here). -/
def c7Prop : Property Unit := ⟨fun _ => Except.ok GoVal.nilv⟩

/-- A head comparator with both sides bound (for example `f1=f2` with both
identifiers resolving). -/
def c7Comp1 : Comparator Unit := ⟨"f1", some c7Prop, Oper.eq, "f2", some c7Prop⟩

/-- A second comparator carrying the literal "key2" against a bound right
side. -/
def c7Comp2 : Comparator Unit := ⟨"key2", none, Oper.eq, "f3", some c7Prop⟩

/-- A query whose WHERE chain is `f1=f2 and key2=f3`. -/
def c7Query : Query Unit :=
  ⟨some "t",
    some (Expression.mk
      (some (Condition.mk (some c7Comp1) andOp
        (some (Condition.mk (some c7Comp2) "" none)))) "" none none),
    false⟩

/-! ### Heap lemmas -/

/-- Extension is reflexive. -/
theorem Heap.grows_refl (h : Heap) : h.Grows h :=
  ⟨[], by simp⟩

/-- Extension is transitive. -/
theorem Heap.grows_trans {h1 h2 h3 : Heap} (a : h1.Grows h2) (b : h2.Grows h3) :
    h1.Grows h3 := by
  obtain ⟨e1, he1⟩ := a
  obtain ⟨e2, he2⟩ := b
  exact ⟨e1 ++ e2, by rw [he2, he1, List.append_assoc]⟩

/-- An extension is at least as long. -/
theorem Heap.grows_length {h h' : Heap} (a : h.Grows h') :
    h.cells.length ≤ h'.cells.length := by
  obtain ⟨e, he⟩ := a
  simp [he]

/-- Allocation extends the heap. -/
theorem Heap.grows_alloc (h : Heap) (r : RecData) : h.Grows (h.alloc r).1 :=
  ⟨[r], rfl⟩

/-- Writing a field at an address past a base heap's end keeps extending
that base heap. -/
theorem Heap.grows_propSet {h0 h : Heap} (hg : h0.Grows h) {c : Nat}
    (hc : h0.cells.length ≤ c) (f : Field) (v : GoVal) :
    h0.Grows (propSet h c f v) := by
  unfold propSet
  cases hr : h.read c with
  | none => exact hg
  | some r =>
    obtain ⟨e, he⟩ := hg
    refine ⟨e.set (c - h0.cells.length) (setField r f v), ?_⟩
    simp only [Heap.write, he]
    exact List.set_append_right _ _ hc

/-- The property-copy loop of `cloneOnlyWithColumns` keeps extending any
base heap when the clone address lies past that base heap's end. -/
theorem Heap.grows_cloneFold (props : List Field) (a c : Nat) :
    ∀ {h0 h : Heap}, h0.Grows h → h0.cells.length ≤ c →
      h0.Grows (props.foldl
        (fun hh p => propSet hh c p ((propGet hh a p).getD GoVal.nilv)) h) := by
  induction props with
  | nil => intro h0 h hg _; exact hg
  | cons p rest ih =>
    intro h0 h hg hc
    exact ih (Heap.grows_propSet hg hc p _) hc

/-- Cloning extends the heap: the fresh record is appended and all `set`
calls target it only. -/
theorem Heap.grows_clone (props : List Field) (h : Heap) (a : Nat) :
    h.Grows (cloneOnlyWithColumns props h a).1 := by
  unfold cloneOnlyWithColumns
  exact Heap.grows_cloneFold props a h.cells.length (Heap.grows_alloc h [])
    (Nat.le_refl _)

/-- C10: `Filter` never mutates pre-existing records — its result heap
extends the input heap (clones are fresh allocations written in place),
and without projection it returns exactly the original matching record
addresses. -/
theorem filter_preserves_input_records :
    (∀ (q : HQuery) (h : Heap) (list : List Nat) (only : Bool),
      h.Grows (q.Filter h list only).1)
    ∧ (∀ (q : HQuery) (h : Heap) (list : List Nat),
      q.Filter h list false = (h, list.filter (q.pred h))) := by
  constructor
  · intro q h list only
    induction list generalizing h with
    | nil => exact Heap.grows_refl h
    | cons i rest ih =>
      simp only [HQuery.Filter]
      by_cases hp : q.pred h i
      · simp only [hp, if_true]
        by_cases hsel : !only || q.properties.isEmpty
        · simp only [hsel, if_true]
          exact ih h
        · simp only [hsel, if_false]
          exact Heap.grows_trans (Heap.grows_clone q.properties h i)
            (ih (cloneOnlyWithColumns q.properties h i).1)
      · simp only [hp, if_false]
        exact ih h
  · intro q h list
    induction list with
    | nil => rfl
    | cons i rest ih =>
      simp only [HQuery.Filter, Bool.not_false, Bool.true_or, if_true,
        List.filter_cons]
      by_cases hp : q.pred h i
      · simp [hp, ih]
      · simp [hp, ih]

/-- C9: with no resolved projection properties (a sole `*` select column
or none at all), `Filter` with projection requested returns the original
matching records themselves. -/
theorem filter_no_projection_identity :
    (∀ resolve : String → Option Field, initColumns resolve ["*"] = some [])
    ∧ (∀ resolve : String → Option Field, initColumns resolve [] = some [])
    ∧ (∀ (q : HQuery) (h : Heap) (list : List Nat), q.properties = [] →
      q.Filter h list true = (h, list.filter (q.pred h))) := by
  refine ⟨fun _ => rfl, fun _ => rfl, ?_⟩
  intro q h list hprops
  induction list with
  | nil => rfl
  | cons i rest ih =>
    simp only [HQuery.Filter, hprops, List.isEmpty_nil, Bool.or_true, if_true,
      List.filter_cons]
    by_cases hp : q.pred h i
    · simp [hp, ih]
    · simp [hp, ih]

/-- Witness for C9: the identity behaviour at a concrete query, heap and
record list. -/
theorem filter_no_projection_identity_witness :
    c9Query.Filter c9Heap [0, 1] true =
      (c9Heap, List.filter (c9Query.pred c9Heap) [0, 1]) :=
  filter_no_projection_identity.2.2 c9Query c9Heap [0, 1] rfl

/-! ### Comparator evaluation and match facade claims -/

/-- C1 (evaluation at the failing input): with a bound right side whose
`get` succeeds, `Comparator.Match` returns `(false, nil)` without
dispatching, although the kernel on the values in play returns true — the
method returns `(false, err)` with `err = nil`, contradicting the claim
that this happens only when an accessor get actually fails. -/
theorem match_right_binding_drops_result :
    c1Comparator.MatchC () true = (false, none)
    ∧ comparablesCompare Oper.eq (GoVal.str "5") (GoVal.str "5") = true :=
  ⟨rfl, by decide⟩

/-- C4 (evaluation at the failing input): the parser does keep the
double-quoted literal's case (and lowercases unquoted operands), but with
match-case set the equality comparison still succeeds on "hello" versus
"Hello" because the equality kernel lowercases both sides itself — the
comparison is not case-sensitive. -/
theorem matchcase_equality_still_folds_case :
    stripQuotes "\"Hello\"" = "Hello"
    ∧ stripQuotes "hELLo" = "hello"
    ∧ c4Comparator.MatchC () true = (true, none)
    ∧ eqStringMatcher (GoVal.str "hello") (GoVal.str "Hello") = true := by
  refine ⟨by decide, by decide, by decide, by decide⟩

/-- C8: matching a nil record yields `(false, nil)` for every query, while
a non-nil record under a query with a root type and no WHERE clause yields
`(true, nil)`. -/
theorem match_nil_record_false :
    (∀ (Rec : Type) (q : Query Rec), q.matchQ none = (false, none))
    ∧ (∀ (Rec : Type) (q : Query Rec) (r : Rec), q.rootType.isSome = true →
      q.whereE = none → q.matchQ (some r) = (true, none)) := by
  constructor
  · intro Rec q; rfl
  · intro Rec q r hrt hw
    cases hq : q.rootType with
    | none => rw [hq] at hrt; cases hrt
    | some n => simp [Query.matchQ, hq, hw]

/-- Witness for C8 at a concrete query with a root type and no WHERE
clause. -/
theorem match_nil_record_false_witness :
    (Query.mk (some "t") none false : Query Unit).matchQ (some ()) =
      (true, none) :=
  match_nil_record_false.2 Unit (Query.mk (some "t") none false) () rfl rfl

/-! ### Parser claims -/

/-- C6: a query text whose bracket-preserving lowercase form contains both
`descending` and `ascending` constructs a header with descending = false
(presence-only tags, `ascending` clears last); with `descending` alone the
header has descending = true. -/
theorem descending_cancelled_by_ascending :
    (∀ t, strContains (TrimAndLowerNoKeys t) "descending" = true →
      strContains (TrimAndLowerNoKeys t) "ascending" = true →
      pqueryDescending t = false)
    ∧ (∀ t, strContains (TrimAndLowerNoKeys t) "descending" = true →
      strContains (TrimAndLowerNoKeys t) "ascending" = false →
      pqueryDescending t = true) := by
  constructor <;> intro t h1 h2 <;>
    simp [pqueryDescending, getBoolTag, h1, h2]

/-- Witness for C6 at concrete query texts in both presence combinations. -/
theorem descending_cancelled_by_ascending_witness :
    pqueryDescending "select x from t descending ascending" = false
    ∧ pqueryDescending "select x from t descending" = true :=
  ⟨descending_cancelled_by_ascending.1 "select x from t descending ascending"
      (by decide) (by decide),
    descending_cancelled_by_ascending.2 "select x from t descending"
      (by decide) (by decide)⟩

/-- C3: limit-clause processing during query construction fails exactly
when the limit text parses to an integer of at least 1000 (999 passes,
1000 fails); a non-empty unparseable limit text does not fail and yields
the default limit 10. -/
theorem limit_clause_error_iff_ge_1000 :
    (∀ s, initLimit s = none ↔ ∃ v, goAtoi s = some v ∧ 1000 ≤ v)
    ∧ (∀ s, s ≠ "" → goAtoi s = none → initLimit s = some 10)
    ∧ initLimit "999" = some 999 ∧ initLimit "1000" = none := by
  refine ⟨?_, ?_, by decide, by decide⟩
  · intro s
    unfold initLimit
    by_cases hs : s = ""
    · subst hs
      rw [if_pos rfl]
      constructor
      · intro h; cases h
      · rintro ⟨v, hv, -⟩
        rw [show goAtoi "" = none from by decide] at hv
        cases hv
    · rw [if_neg hs]
      cases hA : goAtoi s with
      | none =>
        rw [if_neg (by decide)]
        constructor
        · intro h; cases h
        · rintro ⟨v, hv, -⟩; cases hv
      | some v =>
        by_cases hge : (1000 : Int) ≤ v
        · rw [if_pos hge]
          exact ⟨fun _ => ⟨v, rfl, hge⟩, fun _ => rfl⟩
        · rw [if_neg hge]
          constructor
          · intro h; cases h
          · rintro ⟨v', hv', hge'⟩
            injection hv' with hvv
            exact absurd (hvv ▸ hge') hge
  · intro s hs hA
    unfold initLimit
    rw [if_neg hs, hA]
    decide

/-- Witness for C3: a non-empty unparseable limit text does not abort
construction and yields the default limit 10. -/
theorem limit_clause_error_iff_ge_1000_witness :
    initLimit "abc" = some 10 :=
  limit_clause_error_iff_ge_1000.2.1 "abc" (by decide) (by decide)

/-! ### String-kind equality (wildcards) -/

/-- C2: on string-kind equality, a processed side equal to `*` always
matches; otherwise a right side containing `*` matches exactly when some
non-empty piece of its split on `*` occurs inside the left side; with no
wildcard in the right side the result is plain equality of the processed
sides together with the `nil`-matches-empty concession. -/
theorem eq_string_wildcard_semantics (l r : String) :
    ((removeSingleQuote (lowerStr l) = "*" ∨ removeSingleQuote (lowerStr r) = "*") →
      eqStringMatcher (GoVal.str l) (GoVal.str r) = true)
    ∧ (removeSingleQuote (lowerStr l) ≠ "*" → removeSingleQuote (lowerStr r) ≠ "*" →
        strContains (removeSingleQuote (lowerStr r)) "*" = true →
        (eqStringMatcher (GoVal.str l) (GoVal.str r) = true ↔
          ∃ sub ∈ splitOnChar (removeSingleQuote (lowerStr r)) (Char.ofNat 42),
            sub ≠ "" ∧ strContains (removeSingleQuote (lowerStr l)) sub = true))
    ∧ (removeSingleQuote (lowerStr l) ≠ "*" →
        strContains (removeSingleQuote (lowerStr r)) "*" = false →
        (eqStringMatcher (GoVal.str l) (GoVal.str r) = true ↔
          (removeSingleQuote (lowerStr l) = removeSingleQuote (lowerStr r)
            ∨ (removeSingleQuote (lowerStr l) = "nil"
                ∧ removeSingleQuote (lowerStr r) = "")
            ∨ (removeSingleQuote (lowerStr r) = "nil"
                ∧ removeSingleQuote (lowerStr l) = "")))) := by
  refine ⟨?_, ?_, ?_⟩
  · rintro (h | h)
    · simp only [eqStringMatcher]
      rw [if_neg (fun hh => absurd (h.symm.trans hh.1) (by decide)),
        if_neg (fun hh => absurd (h.symm.trans hh.2) (by decide)),
        if_pos (Or.inl h)]
    · simp only [eqStringMatcher]
      rw [if_neg (fun hh => absurd (h.symm.trans hh.2) (by decide)),
        if_neg (fun hh => absurd (h.symm.trans hh.1) (by decide)),
        if_pos (Or.inr h)]
  · intro ha hz hc
    simp only [eqStringMatcher]
    have hzne : removeSingleQuote (lowerStr r) ≠ "" := by
      intro h; rw [h] at hc; exact absurd hc (by decide)
    have hznil : removeSingleQuote (lowerStr r) ≠ "nil" := by
      intro h; rw [h] at hc; exact absurd hc (by decide)
    rw [if_neg (fun hh => hzne hh.2), if_neg (fun hh => hznil hh.1),
      if_neg (fun hh => hh.elim ha hz)]
    rw [show GetWildCardSubstrings (removeSingleQuote (lowerStr r)) =
        some (splitOnChar (removeSingleQuote (lowerStr r)) (Char.ofNat 42)) from by
      simp [GetWildCardSubstrings, hc]]
    simp only [List.any_eq_true, Bool.and_eq_true, bne_iff_ne, ne_eq]
  · intro ha hnc
    have hzstar : removeSingleQuote (lowerStr r) ≠ "*" := by
      intro h; rw [h] at hnc; exact absurd hnc (by decide)
    simp only [eqStringMatcher]
    by_cases h1 : removeSingleQuote (lowerStr l) = "nil"
        ∧ removeSingleQuote (lowerStr r) = ""
    · rw [if_pos h1]
      exact iff_of_true rfl (Or.inr (Or.inl h1))
    · rw [if_neg h1]
      by_cases h2 : removeSingleQuote (lowerStr r) = "nil"
          ∧ removeSingleQuote (lowerStr l) = ""
      · rw [if_pos h2]
        exact iff_of_true rfl (Or.inr (Or.inr h2))
      · rw [if_neg h2, if_neg (fun hh => hh.elim ha hzstar)]
        rw [show GetWildCardSubstrings (removeSingleQuote (lowerStr r)) = none from by
          simp [GetWildCardSubstrings, hnc]]
        simp only [beq_iff_eq]
        constructor
        · exact fun h => Or.inl h
        · rintro (h | h | h)
          · exact h
          · exact absurd h h1
          · exact absurd h h2

/-- Witness for C2: a literal `*` on the right matches anything, and a
wildcard pattern matches through one of its pieces. -/
theorem eq_string_wildcard_semantics_witness :
    eqStringMatcher (GoVal.str "abc") (GoVal.str "*") = true
    ∧ eqStringMatcher (GoVal.str "hello world") (GoVal.str "wor*xyz") = true :=
  ⟨(eq_string_wildcard_semantics "abc" "*").1 (Or.inr (by decide)),
    ((eq_string_wildcard_semantics "hello world" "wor*xyz").2.1 (by decide)
        (by decide) (by decide)).mpr ⟨"wor", by decide, by decide, by decide⟩⟩

/-! ### `not in` as the negation of `in` -/

/-- The loop of `notinStringMatcher` is the negated loop of
`inStringMatcher`. -/
theorem notinStrLoop_neg (a : String) :
    ∀ l, notinStrLoop a l = !(inStrLoop a l) := by
  intro l
  induction l with
  | nil => rfl
  | cons v rest ih =>
    by_cases h : a = v
    · simp [notinStrLoop, inStrLoop, h]
    · simp [notinStrLoop, inStrLoop, h, ih]

/-- The loop of `notinIntMatcher` is the negated loop of `inIntMatcher`,
also at unparseable list elements. -/
theorem notinIntLoop_neg (a : Int) :
    ∀ l, notinIntLoop a l = !(inIntLoop a l) := by
  intro l
  induction l with
  | nil => rfl
  | cons v rest ih =>
    cases hA : goAtoi v with
    | none => simp [notinIntLoop, inIntLoop, hA]
    | some iv =>
      by_cases h : a = iv
      · simp [notinIntLoop, inIntLoop, hA, h]
      · simp [notinIntLoop, inIntLoop, hA, h, ih]

/-- The loop of `notinUintMatcher` is the negated loop of
`inUintMatcher`. -/
theorem notinUintLoop_neg (a : Nat) :
    ∀ l, notinUintLoop a l = !(inUintLoop a l) := by
  intro l
  induction l with
  | nil => rfl
  | cons v rest ih =>
    cases hA : goAtoi v with
    | none => simp [notinUintLoop, inUintLoop, hA]
    | some iv =>
      by_cases h : a = (iv.emod (2 ^ 64)).toNat
      · simp [notinUintLoop, inUintLoop, hA, h]
      · simp [notinUintLoop, inUintLoop, hA, h, ih]

/-- C5: `NotIN.Compare` is the pointwise negation of `IN.Compare` for
every scalar-kind left operand and string list right operand, and the
negation also holds kernel by kernel for arbitrary left values, including
unparseable left operands and unparseable list elements. -/
theorem notin_negates_in :
    (∀ (l : GoVal) (r : String), isScalarOperand l = true →
      notinCompare l (GoVal.str r) = !(inCompare l (GoVal.str r)))
    ∧ (∀ (s r : String),
      notinStringMatcher (GoVal.str s) (GoVal.str r) =
        !(inStringMatcher (GoVal.str s) (GoVal.str r)))
    ∧ (∀ (l : GoVal) (r : String),
      notinIntMatcher l (GoVal.str r) = !(inIntMatcher l (GoVal.str r)))
    ∧ (∀ (l : GoVal) (r : String),
      notinUintMatcher l (GoVal.str r) = !(inUintMatcher l (GoVal.str r))) := by
  have hstr : ∀ (s r : String),
      notinStringMatcher (GoVal.str s) (GoVal.str r) =
        !(inStringMatcher (GoVal.str s) (GoVal.str r)) := by
    intro s r
    simp [notinStringMatcher, inStringMatcher, notinStrLoop_neg]
  have hint : ∀ (l : GoVal) (r : String),
      notinIntMatcher l (GoVal.str r) = !(inIntMatcher l (GoVal.str r)) := by
    intro l r
    cases hA : getInt64 l with
    | none => simp [notinIntMatcher, inIntMatcher, hA]
    | some a => simp [notinIntMatcher, inIntMatcher, hA, notinIntLoop_neg]
  have huint : ∀ (l : GoVal) (r : String),
      notinUintMatcher l (GoVal.str r) = !(inUintMatcher l (GoVal.str r)) := by
    intro l r
    cases hA : getUint64 l with
    | none => simp [notinUintMatcher, inUintMatcher, hA]
    | some a => simp [notinUintMatcher, inUintMatcher, hA, notinUintLoop_neg]
  refine ⟨?_, hstr, hint, huint⟩
  intro l r hscalar
  cases l with
  | str s => simpa [notinCompare, inCompare, getKind, sideKind, kindOfScalar]
      using hstr s r
  | intV i => simpa [notinCompare, inCompare, getKind, sideKind, kindOfScalar]
      using hint (GoVal.intV i) r
  | uintV n => simpa [notinCompare, inCompare, getKind, sideKind, kindOfScalar]
      using huint (GoVal.uintV n) r
  | slice l => cases hscalar
  | nilv => cases hscalar

/-- Witness for C5 at concrete operands of all three scalar kinds. -/
theorem notin_negates_in_witness :
    notinCompare (GoVal.str "a") (GoVal.str "[a,b]") =
      !(inCompare (GoVal.str "a") (GoVal.str "[a,b]"))
    ∧ notinCompare (GoVal.intV 5) (GoVal.str "[7,abc]") =
      !(inCompare (GoVal.intV 5) (GoVal.str "[7,abc]"))
    ∧ notinCompare (GoVal.uintV 3) (GoVal.str "[3]") =
      !(inCompare (GoVal.uintV 3) (GoVal.str "[3]")) :=
  ⟨notin_negates_in.1 (GoVal.str "a") "[a,b]" rfl,
    notin_negates_in.1 (GoVal.intV 5) "[7,abc]" rfl,
    notin_negates_in.1 (GoVal.uintV 3) "[3]" rfl⟩

/-! ### `KeyOf` traversal -/

/-- The condition-level keyOf only consults the head comparator of the
chain. -/
theorem keyOfCond_headComp :
    ∀ (c : Condition Rec),
      Condition.keyOfCond c =
        ((Condition.headComp c).map Comparator.keyOf).getD ""
  | .mk (some cp) op next => by
    simp [Condition.keyOfCond, Condition.headComp]
  | .mk none op (some n) => by
    simpa [Condition.keyOfCond, Condition.headComp] using keyOfCond_headComp n
  | .mk none op none => rfl

/-- The expression-level keyOf only consults the head comparator reached
by preferring condition, then child, then next. -/
theorem keyOfE_headComp :
    ∀ (e : Expression Rec),
      Expression.keyOfE e =
        ((Expression.headComp e).map Comparator.keyOf).getD ""
  | .mk (some c) op next child => by
    simpa [Expression.keyOfE, Expression.headComp] using keyOfCond_headComp c
  | .mk none op next (some ch) => by
    simpa [Expression.keyOfE, Expression.headComp] using keyOfE_headComp ch
  | .mk none op (some n) none => by
    simpa [Expression.keyOfE, Expression.headComp] using keyOfE_headComp n
  | .mk none op none none => rfl

/-- C7 (amended): `KeyOf` is empty without a WHERE clause; otherwise it
returns the keyOf of the single head comparator located by preferring
condition over child over next (and within a condition chain, the first
link carrying a comparator) — later comparators are never consulted, even
when the head comparator has both sides bound. -/
theorem keyOf_head_comparator_characterization :
    ∀ (Rec : Type) (q : Query Rec),
      Query.KeyOf q =
        (((q.whereE.bind Expression.headComp).map Comparator.keyOf).getD "") := by
  intro Rec q
  cases hw : q.whereE with
  | none => simp [Query.KeyOf, hw]
  | some e => simp [Query.KeyOf, hw, keyOfE_headComp e]

/-- C7 (counterexample): scanning for the first comparator with a literal
side would produce "key2", but `KeyOf` stops at the head comparator (both
sides bound) and returns the empty string. -/
theorem keyOf_scan_counterexample :
    Query.KeyOf c7Query = "" ∧ Query.keyOfClaimScan c7Query = "key2" :=
  ⟨rfl, rfl⟩

end L8
